import Mathlib

/-!
Formal model of the e-mail spam-detection pipeline (Flask app `app.py` with
services `url_intel.py`, `header_auth.py`, `heuristics.py`, `model_service.py`).

Conventions of the shallow embedding:
* Python floats are modelled as rationals (`ℚ`); the numeric constants of the
  source (0.15, 0.45, …) appear as exact fractions.
* Python strings are modelled as `String` / `List Char`; `str.lower` is
  modelled for the ASCII range (all literals compared by the source are ASCII).
* Python line splitting (`str.splitlines`) is modelled for the line
  terminators `\n`, `\r\n` and `\r`.
* `re.search` calls are modelled by explicit leftmost-match scanners that
  follow the concrete regular expressions of the source.
-/

namespace EmailSpam

/-! ## Python string primitives -/

/-- Python whitespace (the ASCII characters stripped by `str.strip`). -/
def isPySpace (c : Char) : Bool :=
  c = ' ' || c = '\t' || c = '\n' || c = '\r' || c = '\x0b' || c = '\x0c'

/-- Python `str.lower` on the ASCII range (`Char.toLower` lowers exactly A–Z). -/
def toLowerL (l : List Char) : List Char := l.map Char.toLower

/-- Python `str.lstrip()`. -/
def lstripL (l : List Char) : List Char := l.dropWhile isPySpace

/-- Python `str.rstrip()`. -/
def rstripL (l : List Char) : List Char := (l.reverse.dropWhile isPySpace).reverse

/-- Python `str.strip()` (strip both ends; modelled as lstrip then rstrip). -/
def stripL (l : List Char) : List Char := rstripL (lstripL l)

/-- Python `str.splitlines()` for the terminators `\n`, `\r\n`, `\r`:
no entry for a trailing terminator, `""` gives `[]`. -/
def pySplitlines : List Char → List (List Char)
  | [] => []
  | '\n' :: cs => [] :: pySplitlines cs
  | '\r' :: '\n' :: cs => [] :: pySplitlines cs
  | '\r' :: cs => [] :: pySplitlines cs
  | c :: cs =>
    match pySplitlines cs with
    | [] => [[c]]
    | p :: ps => (c :: p) :: ps

/-- Python `' '.join(xs)`. -/
def joinSp (ls : List (List Char)) : List Char := List.intercalate [' '] ls

/-- Substring test (`needle in hay` on Python strings). -/
def containsSub (needle : List Char) : List Char → Bool
  | [] => needle.isPrefixOf ([] : List Char)
  | c :: cs => needle.isPrefixOf (c :: cs) || containsSub needle cs

/-! ## Numeric primitive -/

/-- Numpy `np.clip(x, 0.0, 1.0)`. -/
def clip01 (x : ℚ) : ℚ := min 1 (max 0 x)

/-! ## URL intelligence (`services/url_intel.py`) -/

/-- One entry of the list built by `analyze_urls`: the dict
`{url, host, is_punycode, is_suspicious_tld, has_ip_host, path_depth,
long_query}`. -/
structure UrlFinding where
  url : List Char
  host : List Char
  is_punycode : Bool
  is_suspicious_tld : Bool
  has_ip_host : Bool
  path_depth : Nat
  long_query : Bool
deriving DecidableEq, Repr

/-- The per-URL increment of the loop body of `compute_url_risk`. -/
def urlRiskContribution (f : UrlFinding) : ℚ :=
  (if f.is_suspicious_tld then 3/20 else 0)
  + (if f.has_ip_host then 1/10 else 0)
  + (if f.is_punycode then 1/20 else 0)
  + (if f.path_depth > 4 then 1/20 else 0)
  + (if f.long_query then 1/20 else 0)

/-- Function `compute_url_risk(findings)`: 0.0 for an empty list, otherwise the summed
per-URL contributions capped by `min(1.0, risk)`. -/
def compute_url_risk (findings : List UrlFinding) : ℚ :=
  if findings = [] then 0
  else min 1 (findings.foldl (fun r f => r + urlRiskContribution f) 0)

/-! ## Header authentication data model (`services/header_auth.py`) -/

/-- The status strings `'pass' | 'fail' | 'unknown'` assigned by
`parse_auth_headers`. -/
inductive AuthStatus where
  | pass
  | fail
  | unknown
deriving DecidableEq, Repr

/-- The dict returned by `parse_auth_headers`. -/
structure HeaderVerdict where
  present : Bool
  spf : AuthStatus
  dkim : AuthStatus
  dmarc : AuthStatus
  from_domain : Option (List Char)
deriving DecidableEq, Repr

/-! ## Ensemble blending (`services/model_service.py`, `EnsembleService`) -/

/-- The weight fields of `EnsembleService.__init__`. -/
structure EnsembleWeights where
  url_weight : ℚ
  header_weight : ℚ
  phrase_weight : ℚ
  display_weight : ℚ
deriving DecidableEq, Repr

/-- The instance built in `app.py`: `EnsembleService(lstm_service=...,
url_weight=0.15)` with the declaration defaults `header_weight=0.35`,
`phrase_weight=0.15`, `display_weight=0.10`. -/
def appEnsemble : EnsembleWeights := ⟨3/20, 7/20, 3/20, 1/10⟩

/-- The `content_features` dict read by `blend` (each key defaulting to 0.0). -/
structure ContentFeatures where
  urgency_score : ℚ
  winner_score : ℚ
  suspicious_action_score : ℚ
  has_url : ℚ
  has_currency : ℚ
deriving DecidableEq, Repr

/-- The `header_risk` accumulation of `blend`: only when headers are present,
spf fail→0.4 / unknown→0.05, dkim fail→0.35 / unknown→0.05,
dmarc fail→0.5 / unknown→0.05, clipped to [0,1]. -/
def headerRisk (hv : HeaderVerdict) : ℚ :=
  if hv.present then
    clip01 ((if hv.spf = AuthStatus.fail then 2/5
             else if hv.spf = AuthStatus.unknown then 1/20 else 0)
      + (if hv.dkim = AuthStatus.fail then 7/20
         else if hv.dkim = AuthStatus.unknown then 1/20 else 0)
      + (if hv.dmarc = AuthStatus.fail then 1/2
         else if hv.dmarc = AuthStatus.unknown then 1/20 else 0))
  else 0

/-- The `content_risk` accumulation of `blend` (`if content_features:` is
falsy for an absent dict, giving 0.0). -/
def contentRisk : Option ContentFeatures → ℚ
  | Option.none => 0
  | Option.some cf =>
    clip01 (cf.urgency_score * (3/10) + cf.winner_score * (1/4)
      + cf.suspicious_action_score * (1/5) + cf.has_url * (3/20)
      + cf.has_currency * (1/10))

/-- The blended spam probability computed by `EnsembleService.blend`, given
the classifier spam probability that `self.lstm.predict` returned.
`header_findings` is always the dict produced by `parse_auth_headers` in
`app.py`, so `header_findings and header_findings.get('present')` reduces to
the `present` field. -/
def blendSpamProb (E : EnsembleWeights) (spam_prob url_risk : ℚ)
    (hv : HeaderVerdict) (phrase_score display_mismatch : ℚ)
    (cf : Option ContentFeatures) : ℚ :=
  if hv.present then
    let base := max 0 (1 - E.url_weight - E.header_weight - E.phrase_weight
      - E.display_weight - 1/5)
    clip01 (base * spam_prob + E.url_weight * url_risk
      + E.header_weight * headerRisk hv
      + E.phrase_weight * clip01 phrase_score
      + E.display_weight * clip01 display_mismatch
      + (1/5) * contentRisk cf)
  else
    clip01 ((7/10) * spam_prob + (3/20) * url_risk + (3/20) * contentRisk cf)

/-- The dict returned by `blend` (`category_probs.tolist() if
category_probs.size else []` is the identity on the modelled list). -/
structure BlendOutput where
  spam_prob : ℚ
  raw_spam_prob : ℚ
  category_probs : List ℚ
  content_risk : ℚ
deriving DecidableEq, Repr

/-- Method `blend` after a successful `self.lstm.predict` call returning
`(spam_prob, category_probs)`. -/
def blendOutput (E : EnsembleWeights) (pr : ℚ × List ℚ) (url_risk : ℚ)
    (hv : HeaderVerdict) (phrase_score display_mismatch : ℚ)
    (cf : Option ContentFeatures) : BlendOutput :=
  { spam_prob := blendSpamProb E pr.1 url_risk hv phrase_score display_mismatch cf
    raw_spam_prob := pr.1
    category_probs := pr.2
    content_risk := contentRisk cf }

/-- Method `EnsembleService.blend` in the exception monad. Its first statement is
`spam_prob, category_probs = self.lstm.predict(cleaned_text)` and the method
body contains no try/except, so an exception raised by the classifier's
predict call propagates to the caller; only a successful predict result
reaches the blending arithmetic. -/
def blendE (E : EnsembleWeights) (predictResult : Except Unit (ℚ × List ℚ))
    (url_risk : ℚ) (hv : HeaderVerdict) (phrase_score display_mismatch : ℚ)
    (cf : Option ContentFeatures) : Except Unit BlendOutput :=
  match predictResult with
  | Except.error e => Except.error e
  | Except.ok pr =>
    Except.ok (blendOutput E pr url_risk hv phrase_score display_mismatch cf)

/-! ## Rule-based safety overrides and thresholding (`app.py`, `predict`) -/

/-- Flag `has_risky_url` in `app.py`: some finding has a suspicious TLD, an IP
host, path depth > 4, or a long query. -/
def hasRiskyUrlB (us : List UrlFinding) : Bool :=
  us.any (fun u => u.is_suspicious_tld || u.has_ip_host
    || decide (u.path_depth > 4) || u.long_query)

/-- Flag `header_fail` in `app.py`: initialized False, set only when the parsed
headers are present, to `dmarc=='fail' or (spf=='fail' and dkim=='fail')`. -/
def headerFailB (hv : HeaderVerdict) : Bool :=
  hv.present && ((hv.dmarc == AuthStatus.fail)
    || ((hv.spf == AuthStatus.fail) && (hv.dkim == AuthStatus.fail)))

/-- The override block of `app.py`: raise to at least 0.90 on
`header_fail and has_risky_url`, else to at least 0.75 on
`header_fail or (has_risky_url and url_risk_score > 0.40)`. -/
def applyOverrides (p : ℚ) (hv : HeaderVerdict) (us : List UrlFinding)
    (url_risk : ℚ) : ℚ :=
  if headerFailB hv && hasRiskyUrlB us then max p (9/10)
  else if headerFailB hv || (hasRiskyUrlB us && decide (url_risk > 2/5)) then
    max p (3/4)
  else p

/-- The spec's own wording of `headerFail` (dmarc==fail OR (spf==fail AND
dkim==fail), with no present-guard), written down for comparison with the
source's `headerFailB`. -/
def claimHeaderFail (hv : HeaderVerdict) : Bool :=
  (hv.dmarc == AuthStatus.fail)
    || ((hv.spf == AuthStatus.fail) && (hv.dkim == AuthStatus.fail))

/-- Assignment `prediction = "Spam" if spam_prob > 0.45 else "Not Spam"` in `app.py`. -/
def predictionLabel (p : ℚ) : String := if p > 9/20 then "Spam" else "Not Spam"

/-! ## Header parsing (`services/header_auth.py`) -/

/-- Does a line start with a folding continuation (space or tab)? -/
def startsFolded : List Char → Bool
  | [] => false
  | c :: _ => c = ' ' || c = '\t'

/-- One step of the `_unfold_headers` loop: a continuation line is
space-joined onto the last unfolded line (when one exists), any other line is
appended right-stripped. -/
def unfoldStep (acc : List (List Char)) (line : List Char) : List (List Char) :=
  match acc.reverse with
  | [] => [rstripL line]
  | lastLine :: revFront =>
    if startsFolded line then revFront.reverse ++ [lastLine ++ ' ' :: stripL line]
    else acc ++ [rstripL line]

/-- Function `_unfold_headers(headers_text)`. -/
def unfoldHeaders (s : List Char) : List (List Char) :=
  (pySplitlines s).foldl unfoldStep []

/-- Python `line.split(':', 1)` when the line contains a colon. -/
def splitFirstColon : List Char → Option (List Char × List Char)
  | [] => Option.none
  | c :: cs =>
    if c = ':' then Option.some ([], cs)
    else
      match splitFirstColon cs with
      | Option.none => Option.none
      | Option.some (a, b) => Option.some (c :: a, b)

/-- Python `headers.setdefault(key, []).append(val)` on an insertion-ordered map. -/
def addHeader (hs : List (List Char × List (List Char))) (k : List Char)
    (v : List Char) : List (List Char × List (List Char)) :=
  match hs with
  | [] => [(k, [v])]
  | (k', vs) :: rest =>
    if k' = k then (k', vs ++ [v]) :: rest else (k', vs) :: addHeader rest k v

/-- One step of the header-indexing loop of `parse_auth_headers`: a line with
a colon contributes `key.strip().lower() → val.strip()`, others are skipped. -/
def indexStep (hs : List (List Char × List (List Char))) (line : List Char) :
    List (List Char × List (List Char)) :=
  match splitFirstColon line with
  | Option.none => hs
  | Option.some (k, v) => addHeader hs (toLowerL (stripL k)) (stripL v)

/-- The header-indexing loop of `parse_auth_headers` over all unfolded lines. -/
def headersIndex (lines : List (List Char)) : List (List Char × List (List Char)) :=
  lines.foldl indexStep []

/-- Python `headers.get(key, [])`. -/
def getHeader (hs : List (List Char × List (List Char))) (k : List Char) :
    List (List Char) :=
  match hs.find? (fun kv => kv.1 == k) with
  | Option.some kv => kv.2
  | Option.none => []

/-- Python `key in headers`. -/
def hasHeader (hs : List (List Char × List (List Char))) (k : List Char) : Bool :=
  (hs.find? (fun kv => kv.1 == k)).isSome

/-- Exact-prefix removal (the literal part of a regex match). -/
def dropPref : List Char → List Char → Option (List Char)
  | [], s => Option.some s
  | _ :: _, [] => Option.none
  | p :: ps, c :: cs => if c = p then dropPref ps cs else Option.none

/-- The alternation `(pass|fail|softfail|neutral|none|temperror|permerror|bestguesspass)`
of `extract_auth_result`, tried left to right as a regex engine does. -/
def authAlternatives : List (List Char) :=
  ["pass".toList, "fail".toList, "softfail".toList, "neutral".toList,
   "none".toList, "temperror".toList, "permerror".toList, "bestguesspass".toList]

/-- Match `{name}\s*=\s*(alternation)` at the start of `s` (already
lowercased, which models the regex's IGNORECASE flag). -/
def matchAuthAt (nm s : List Char) : Option (List Char) :=
  match dropPref nm s with
  | Option.none => Option.none
  | Option.some r =>
    match r.dropWhile isPySpace with
    | '=' :: r2 =>
      authAlternatives.find? (fun a => a.isPrefixOf (r2.dropWhile isPySpace))
    | _ => Option.none

/-- Search `re.search` for `{name}\s*=\s*(alternation)`: leftmost match wins. -/
def searchAuth (nm : List Char) : List Char → Option (List Char)
  | [] => matchAuthAt nm []
  | c :: cs =>
    match matchAuthAt nm (c :: cs) with
    | Option.some v => Option.some v
    | Option.none => searchAuth nm cs

/-- The value mapping of `extract_auth_result`: pass/bestguesspass → pass,
fail/permerror → fail, any other (or no) match → unknown. -/
def classifyAuthToken : Option (List Char) → AuthStatus
  | Option.some v =>
    if v = "pass".toList ∨ v = "bestguesspass".toList then AuthStatus.pass
    else if v = "fail".toList ∨ v = "permerror".toList then AuthStatus.fail
    else AuthStatus.unknown
  | Option.none => AuthStatus.unknown

/-- Function `extract_auth_result(name)` over the (lowercased) combined
Authentication-Results text. -/
def extractAuthResult (nm lowText : List Char) : AuthStatus :=
  classifyAuthToken (searchAuth nm lowText)

/-- The last-resort flattened scan: `'{nm}=pass' in flat`, else
`'{nm}=fail' in flat`, else stays unknown. -/
def flatScanStatus (nm flat : List Char) : AuthStatus :=
  if containsSub (nm ++ "=pass".toList) flat then AuthStatus.pass
  else if containsSub (nm ++ "=fail".toList) flat then AuthStatus.fail
  else AuthStatus.unknown

/-- ASCII model of the `\w` class in `@([\w.-]+)` plus the literal `.`/`-`. -/
def isDomainChar (c : Char) : Bool := c.isAlphanum || c = '_' || c = '.' || c = '-'

/-- Search `re.search(r"@([\w.-]+)", joined)`: the first `@` followed by at least one
domain character yields the maximal run after it. -/
def searchAtDomain : List Char → Option (List Char)
  | [] => Option.none
  | c :: cs =>
    if c = '@' then
      match cs.takeWhile isDomainChar with
      | [] => searchAtDomain cs
      | d :: ds => Option.some (d :: ds)
    else searchAtDomain cs

/-- The body of `parse_auth_headers` after the empty-text short circuit, as a
function of the indexed header map. -/
def parseHeaderMap (hs : List (List Char × List (List Char))) : HeaderVerdict :=
  let authText := joinSp (getHeader hs "authentication-results".toList)
    ++ ' ' :: joinSp (getHeader hs "arc-authentication-results".toList)
  let lowAuth := toLowerL authText
  let spf0 := extractAuthResult "spf".toList lowAuth
  let dkim0 := extractAuthResult "dkim".toList lowAuth
  let dmarc0 := extractAuthResult "dmarc".toList lowAuth
  let spf1 :=
    if spf0 = AuthStatus.unknown ∧ hasHeader hs "received-spf".toList then
      let padded := ' ' :: toLowerL (joinSp (getHeader hs "received-spf".toList)) ++ [' ']
      if containsSub " pass ".toList padded then AuthStatus.pass
      else if containsSub " fail ".toList padded then AuthStatus.fail
      else spf0
    else spf0
  let fin :=
    if spf1 = AuthStatus.unknown ∨ dkim0 = AuthStatus.unknown
        ∨ dmarc0 = AuthStatus.unknown then
      let flat := toLowerL (joinSp (hs.map (fun kv => kv.1 ++ ':' :: ' ' :: joinSp kv.2)))
      ((if spf1 = AuthStatus.unknown then flatScanStatus "spf".toList flat else spf1),
       (if dkim0 = AuthStatus.unknown then flatScanStatus "dkim".toList flat else dkim0),
       (if dmarc0 = AuthStatus.unknown then flatScanStatus "dmarc".toList flat else dmarc0))
    else (spf1, dkim0, dmarc0)
  let fromDom :=
    if hasHeader hs "from".toList then
      match searchAtDomain (joinSp (getHeader hs "from".toList)) with
      | Option.some d => Option.some (toLowerL d)
      | Option.none => Option.none
    else Option.none
  { present := true
    spf := fin.1
    dkim := fin.2.1
    dmarc := fin.2.2
    from_domain := fromDom }

/-- Function `parse_auth_headers(headers_text)`: empty text short-circuits, any other
text is unfolded, indexed and run through the extraction cascade. -/
def parse_auth_headers (s : String) : HeaderVerdict :=
  if s = "" then
    { present := false
      spf := AuthStatus.unknown
      dkim := AuthStatus.unknown
      dmarc := AuthStatus.unknown
      from_domain := Option.none }
  else parseHeaderMap (headersIndex (unfoldHeaders s.data))

/-! ## Allowlist attenuation (`services/heuristics.py`) -/

/-- Constant `ALLOWLIST_DOMAINS`. -/
def allowlistDomains : List (List Char) :=
  ["google.com".toList, "gmail.com".toList, "apple.com".toList,
   "amazon.com".toList, "microsoft.com".toList, "outlook.com".toList,
   "live.com".toList, "paypal.com".toList, "netflix.com".toList]

/-- Python `any(domain == d or domain.endswith('.' + d) for d in ALLOWLIST_DOMAINS)`. -/
def allowDomainMatch (domain : List Char) : Bool :=
  allowlistDomains.any (fun d => domain == d || ('.' :: d).isSuffixOf domain)

/-- Case-insensitive removal of a (lowercase) literal regex prefix, modelling
the IGNORECASE flag of `apply_allowlist`'s search. -/
def dropPrefCI : List Char → List Char → Option (List Char)
  | [], s => Option.some s
  | _ :: _, [] => Option.none
  | p :: ps, c :: cs => if Char.toLower c = p then dropPrefCI ps cs else Option.none

/-- Match `From:\s*[^<]*<[^@>]+@([^>]+)>` (IGNORECASE) at the start of `s`;
the returned value is the capture group `([^>]+)`. Each starred/plussed class
excludes its closing literal, so the greedy runs are exactly
`takeWhile`/`dropWhile` with no backtracking. -/
def matchFromAt (s : List Char) : Option (List Char) :=
  match dropPrefCI "from:".toList s with
  | Option.none => Option.none
  | Option.some r0 =>
    let r1 := r0.dropWhile isPySpace
    match r1.dropWhile (fun c => c != '<') with
    | '<' :: r3 =>
      match r3.takeWhile (fun c => c != '@' && c != '>') with
      | [] => Option.none
      | _ :: _ =>
        match r3.dropWhile (fun c => c != '@' && c != '>') with
        | '@' :: r5 =>
          match r5.takeWhile (fun c => c != '>') with
          | [] => Option.none
          | d :: ds =>
            match r5.dropWhile (fun c => c != '>') with
            | '>' :: _ => Option.some (d :: ds)
            | _ => Option.none
        | _ => Option.none
    | _ => Option.none

/-- Search `re.search` for the From-address pattern: leftmost match wins. -/
def searchFrom : List Char → Option (List Char)
  | [] => Option.none
  | c :: cs =>
    match matchFromAt (c :: cs) with
    | Option.some d => Option.some d
    | Option.none => searchFrom cs

/-- Function `apply_allowlist(spam_score, headers_text)`: empty text or no regex match
passes the score through; a matched From domain that equals or is a subdomain
of an allowlisted domain yields `max(0.0, spam_score - 0.1)`. -/
def apply_allowlist (spam_score : ℚ) (headers_text : String) : ℚ :=
  if headers_text = "" then spam_score
  else
    match searchFrom headers_text.data with
    | Option.none => spam_score
    | Option.some d =>
      if allowDomainMatch (toLowerL (stripL d)) then max 0 (spam_score - 1/10)
      else spam_score

/-! ## Sample data for witnesses and counterexamples -/

/-- A header verdict whose DMARC failed (headers present). -/
def hvDmarcFail : HeaderVerdict :=
  ⟨true, AuthStatus.unknown, AuthStatus.unknown, AuthStatus.fail, Option.none⟩

/-- The verdict `parse_auth_headers` yields on empty header text. -/
def hvAbsent : HeaderVerdict :=
  ⟨false, AuthStatus.unknown, AuthStatus.unknown, AuthStatus.unknown, Option.none⟩

/-- A present header verdict with all three statuses unknown (what parsing
yields for non-empty text without any authentication result). -/
def hvAllUnknown : HeaderVerdict :=
  ⟨true, AuthStatus.unknown, AuthStatus.unknown, AuthStatus.unknown, Option.none⟩

/-- The risky-URL finding of the spec's scenario (IP host, path depth 5,
long query). -/
def riskyUrlFinding : UrlFinding :=
  ⟨"http://192.168.1.1/a/b/c/d/e".toList, "192.168.1.1".toList,
    false, false, true, 5, true⟩

/-- A finding with no risk indicators at all. -/
def benignUrlFinding : UrlFinding :=
  ⟨"http://example.com/a".toList, "example.com".toList,
    false, false, false, 1, false⟩

/-! ## Helper lemmas -/

theorem clip01_nonneg (x : ℚ) : 0 ≤ clip01 x :=
  le_min (by norm_num) (le_max_left 0 x)

theorem clip01_le_one (x : ℚ) : clip01 x ≤ 1 :=
  min_le_left 1 _

theorem clip01_of_mem (x : ℚ) (h0 : 0 ≤ x) (h1 : x ≤ 1) : clip01 x = x := by
  unfold clip01
  rw [max_eq_right h0, min_eq_right h1]

theorem urlRiskContribution_nonneg (f : UrlFinding) : 0 ≤ urlRiskContribution f := by
  unfold urlRiskContribution
  refine add_nonneg (add_nonneg (add_nonneg (add_nonneg ?_ ?_) ?_) ?_) ?_ <;>
    split <;> norm_num

theorem foldl_urlRisk_nonneg (l : List UrlFinding) (init : ℚ) (h : 0 ≤ init) :
    0 ≤ l.foldl (fun r f => r + urlRiskContribution f) init := by
  induction l generalizing init with
  | nil => simpa using h
  | cons f fs ih => exact ih _ (add_nonneg h (urlRiskContribution_nonneg f))

/-- Source-vs-claim comparison of the two headerFail readings: on any verdict
satisfying the data-model invariant (absent headers force unknown statuses),
the source's present-guarded `header_fail` agrees with the claim's unguarded
formula. -/
theorem headerFailB_eq_claim (hv : HeaderVerdict)
    (hwf : hv.present = false →
      hv.spf = AuthStatus.unknown ∧ hv.dkim = AuthStatus.unknown
        ∧ hv.dmarc = AuthStatus.unknown) :
    headerFailB hv = claimHeaderFail hv := by
  cases hp : hv.present
  · obtain ⟨h1, h2, h3⟩ := hwf hp
    unfold headerFailB claimHeaderFail
    rw [hp, h1, h2, h3]
    rfl
  · unfold headerFailB claimHeaderFail
    rw [hp, Bool.true_and]

/-! ## C1 — rule-based overrides -/

/-- C1: for any blended probability, header verdict satisfying the data-model
invariant (present=false forces unknown statuses) and URL findings, the
override stage returns max(p, 0.90) when headerFail AND hasRiskyUrl, else
max(p, 0.75) when headerFail OR (hasRiskyUrl AND urlRisk > 0.40), else p —
with headerFail and hasRiskyUrl as the claim defines them — and the result is
always at least p. -/
theorem C1_overrides_spec (p url_risk : ℚ) (hv : HeaderVerdict)
    (us : List UrlFinding)
    (hwf : hv.present = false →
      hv.spf = AuthStatus.unknown ∧ hv.dkim = AuthStatus.unknown
        ∧ hv.dmarc = AuthStatus.unknown) :
    applyOverrides p hv us url_risk =
      (if claimHeaderFail hv && hasRiskyUrlB us then max p (9/10)
       else if claimHeaderFail hv
           || (hasRiskyUrlB us && decide (url_risk > 2/5)) then max p (3/4)
       else p)
      ∧ p ≤ applyOverrides p hv us url_risk := by
  have he := headerFailB_eq_claim hv hwf
  constructor
  · unfold applyOverrides
    rw [he]
  · unfold applyOverrides
    split_ifs <;> first | exact le_max_left _ _ | exact le_rfl

/-- Witness for C1 at a concrete input: DMARC failed and an IP-hosted risky
URL is present, so the override forces the probability up to 0.90. -/
theorem C1_overrides_spec_witness :
    applyOverrides (1/2) hvDmarcFail [riskyUrlFinding] 0 = max (1/2) (9/10)
      ∧ (1/2 : ℚ) ≤ applyOverrides (1/2) hvDmarcFail [riskyUrlFinding] 0 := by
  have h := C1_overrides_spec (1/2) 0 hvDmarcFail [riskyUrlFinding] (by decide)
  have hc : (claimHeaderFail hvDmarcFail && hasRiskyUrlB [riskyUrlFinding]) = true := by
    decide
  exact ⟨h.1.trans (if_pos hc), h.2⟩

/-! ## C2 — final thresholding -/

/-- C2: the verdict label is Spam exactly when the final probability is
strictly greater than 0.45; at exactly 0.45 the label is Not Spam. -/
theorem C2_spam_threshold_strict :
    (∀ p : ℚ, predictionLabel p = "Spam" ↔ p > 9/20)
      ∧ predictionLabel (9/20) = "Not Spam" := by
  constructor
  · intro p
    unfold predictionLabel
    split_ifs with h
    · exact ⟨fun _ => h, fun _ => rfl⟩
    · exact ⟨fun hs => absurd hs (by decide), fun hp => absurd hp h⟩
  · norm_num [predictionLabel]

/-! ## C3 — URL risk aggregation -/

/-- Counterexample to C3 as stated: a non-empty findings list with no risk
indicators also yields 0.0, so computeUrlRisk = 0.0 does not imply the list
is empty. -/
theorem C3_counterexample :
    compute_url_risk [benignUrlFinding] = 0
      ∧ [benignUrlFinding] ≠ ([] : List UrlFinding) := by
  refine ⟨?_, by simp⟩
  unfold compute_url_risk
  rw [if_neg (by simp : ¬([benignUrlFinding] = ([] : List UrlFinding)))]
  have h0 : List.foldl (fun r f => r + urlRiskContribution f) 0 [benignUrlFinding]
      = 0 := by
    norm_num [List.foldl, urlRiskContribution, benignUrlFinding]
  rw [h0, min_eq_right (by norm_num : (0 : ℚ) ≤ 1)]

/-- C3 (amended): computeUrlRisk always lies in [0,1] and the empty list
yields 0.0; the converse fails (see the counterexample), since a non-empty
list whose findings set no risk flags also sums to 0.0. -/
theorem C3_amended_range :
    compute_url_risk [] = 0
      ∧ ∀ findings : List UrlFinding,
          0 ≤ compute_url_risk findings ∧ compute_url_risk findings ≤ 1 := by
  refine ⟨rfl, fun findings => ?_⟩
  unfold compute_url_risk
  split_ifs with h
  · norm_num
  · exact ⟨le_min (by norm_num) (foldl_urlRisk_nonneg findings 0 le_rfl),
      min_le_left _ _⟩

/-! ## C4 — blend with absent headers -/

/-- C4: whenever the header verdict has present=false, blend computes the
content-centric weighting 0.70·classifier + 0.15·urlRisk + 0.15·contentRisk,
clamped to [0,1]; the header-present weights and the header-risk term never
enter. -/
theorem C4_blend_headers_absent (E : EnsembleWeights) (spam url phrase disp : ℚ)
    (hv : HeaderVerdict) (cf : Option ContentFeatures)
    (h : hv.present = false) :
    blendSpamProb E spam url hv phrase disp cf
        = clip01 ((7/10) * spam + (3/20) * url + (3/20) * contentRisk cf)
      ∧ 0 ≤ blendSpamProb E spam url hv phrase disp cf
      ∧ blendSpamProb E spam url hv phrase disp cf ≤ 1 := by
  have he : blendSpamProb E spam url hv phrase disp cf
      = clip01 ((7/10) * spam + (3/20) * url + (3/20) * contentRisk cf) := by
    unfold blendSpamProb
    rw [h]
    rfl
  exact ⟨he, he ▸ clip01_nonneg _, he ▸ clip01_le_one _⟩

/-- Witness for C4: with absent headers, a classifier score of 0.5 and no
other signals blends to 0.35. -/
theorem C4_blend_headers_absent_witness :
    blendSpamProb appEnsemble (1/2) 0 hvAbsent 0 0 Option.none = 7/20
      ∧ 0 ≤ blendSpamProb appEnsemble (1/2) 0 hvAbsent 0 0 Option.none
      ∧ blendSpamProb appEnsemble (1/2) 0 hvAbsent 0 0 Option.none ≤ 1 := by
  have h := C4_blend_headers_absent appEnsemble (1/2) 0 0 0 hvAbsent
    Option.none (by decide)
  refine ⟨h.1.trans ?_, h.2.1, h.2.2⟩
  have e : (7/10 * (1/2 : ℚ) + 3/20 * 0 + 3/20 * contentRisk Option.none)
      = 7/20 := by
    norm_num [contentRisk]
  rw [e, clip01_of_mem _ (by norm_num) (by norm_num)]

/-! ## C8 — classifier failure inside blend -/

/-- Counterexample to C8 as stated: with the classifier unavailable
(predict yields an error), blend produces no output at all — the error
propagates and no blended verdict value exists, contradicting the claimed
skipped-flag/renormalization behavior. -/
theorem C8_counterexample :
    blendE appEnsemble (Except.error ()) 0 hvAbsent 0 0 Option.none
        = Except.error ()
      ∧ ∀ out : BlendOutput,
          blendE appEnsemble (Except.error ()) 0 hvAbsent 0 0 Option.none
            ≠ Except.ok out :=
  ⟨rfl, fun _ h => Except.noConfusion h⟩

/-- C8 (amended): when the classifier's predict call fails,
EnsembleService.blend propagates the failure to its caller unchanged — the
method has no handler, no skipped flag and no weight renormalization. -/
theorem C8_amended_blend_propagates (E : EnsembleWeights) (e : Unit)
    (url phrase disp : ℚ) (hv : HeaderVerdict) (cf : Option ContentFeatures) :
    blendE E (Except.error e) url hv phrase disp cf = Except.error e := rfl

/-! ## C5 — empty header text short-circuits -/

theorem parseHeaderMap_present (hs : List (List Char × List (List Char))) :
    (parseHeaderMap hs).present = true := rfl

/-- C5: empty header text yields exactly
present=false / spf=dkim=dmarc=unknown / fromDomain=null without the
cascade; and present=false in a parse result always comes with three unknown
statuses and no From domain. -/
theorem C5_absent_short_circuit :
    parse_auth_headers "" =
        ⟨false, AuthStatus.unknown, AuthStatus.unknown, AuthStatus.unknown,
          Option.none⟩
      ∧ ∀ s : String, (parse_auth_headers s).present = false →
          (parse_auth_headers s).spf = AuthStatus.unknown
            ∧ (parse_auth_headers s).dkim = AuthStatus.unknown
            ∧ (parse_auth_headers s).dmarc = AuthStatus.unknown
            ∧ (parse_auth_headers s).from_domain = Option.none := by
  constructor
  · rfl
  · intro s h
    by_cases hs : s = ""
    · subst hs
      exact ⟨rfl, rfl, rfl, rfl⟩
    · exfalso
      have hp : (parse_auth_headers s).present = true := by
        unfold parse_auth_headers
        rw [if_neg hs]
        exact parseHeaderMap_present _
      rw [hp] at h
      exact absurd h (by decide)

/-! ## C10 — non-empty header text is always `present` -/

theorem splitFirstColon_eq_none {l : List Char} (h : ':' ∉ l) :
    splitFirstColon l = Option.none := by
  induction l with
  | nil => rfl
  | cons c cs ih =>
    have hc : ¬(c = ':') := fun e => h (by simp [e])
    have hcs : ':' ∉ cs := fun m => h (List.mem_cons_of_mem _ m)
    unfold splitFirstColon
    rw [if_neg hc, ih hcs]

theorem foldl_indexStep_const : ∀ (ls : List (List Char))
    (acc : List (List Char × List (List Char))),
    (∀ line ∈ ls, ':' ∉ line) → ls.foldl indexStep acc = acc
  | [], _, _ => rfl
  | l :: ls, acc, h => by
    have h1 : splitFirstColon l = Option.none :=
      splitFirstColon_eq_none (h l (List.mem_cons_self _ _))
    have hstep : indexStep acc l = acc := by
      unfold indexStep
      rw [h1]
    rw [List.foldl_cons, hstep]
    exact foldl_indexStep_const ls acc (fun x hx => h x (List.mem_cons_of_mem _ hx))

theorem headersIndex_eq_nil {lines : List (List Char)}
    (h : ∀ line ∈ lines, ':' ∉ line) : headersIndex lines = [] :=
  foldl_indexStep_const lines [] h

theorem headerRisk_allUnknown : headerRisk hvAllUnknown = 3/20 := by
  show clip01 ((1 : ℚ)/20 + 1/20 + 1/20) = 3/20
  rw [show ((1 : ℚ)/20 + 1/20 + 1/20) = 3/20 by norm_num]
  exact clip01_of_mem _ (by norm_num) (by norm_num)

theorem blend_app_allUnknown (spam url phrase disp : ℚ)
    (cf : Option ContentFeatures) :
    blendSpamProb appEnsemble spam url hvAllUnknown phrase disp cf
      = clip01 ((1/20) * spam + (3/20) * url + (7/20) * (3/20)
          + (3/20) * clip01 phrase + (1/10) * clip01 disp
          + (1/5) * contentRisk cf) := by
  show clip01 (max 0 (1 - 3/20 - 7/20 - 3/20 - 1/10 - 1/5) * spam
      + (3/20) * url + (7/20) * headerRisk hvAllUnknown
      + (3/20) * clip01 phrase + (1/10) * clip01 disp
      + (1/5) * contentRisk cf) = _
  rw [headerRisk_allUnknown,
    show max (0 : ℚ) (1 - 3/20 - 7/20 - 3/20 - 1/10 - 1/5) = 1/20 by
      rw [max_eq_right (by norm_num)]; norm_num]

/-- C10: every non-empty header text parses with present=true; when no
unfolded line carries a colon (whitespace-only text included), all three
statuses are unknown and the blend stage runs its header-present branch with
a header risk of exactly 0.15. -/
theorem C10_nonempty_headers (s : String) (h : s ≠ "") :
    (parse_auth_headers s).present = true
      ∧ ((∀ line ∈ unfoldHeaders s.data, ':' ∉ line) →
          parse_auth_headers s = hvAllUnknown
            ∧ headerRisk (parse_auth_headers s) = 3/20
            ∧ ∀ (spam url phrase disp : ℚ) (cf : Option ContentFeatures),
                blendSpamProb appEnsemble spam url (parse_auth_headers s)
                    phrase disp cf
                  = clip01 ((1/20) * spam + (3/20) * url + (7/20) * (3/20)
                      + (3/20) * clip01 phrase + (1/10) * clip01 disp
                      + (1/5) * contentRisk cf)) := by
  have hp : parse_auth_headers s
      = parseHeaderMap (headersIndex (unfoldHeaders s.data)) := by
    unfold parse_auth_headers
    rw [if_neg h]
  refine ⟨by rw [hp]; exact parseHeaderMap_present _, fun hnc => ?_⟩
  have h0 : headersIndex (unfoldHeaders s.data) = [] := headersIndex_eq_nil hnc
  have hv : parse_auth_headers s = hvAllUnknown := by
    rw [hp, h0]
    decide
  exact ⟨hv, by rw [hv]; exact headerRisk_allUnknown,
    fun spam url phrase disp cf => by
      rw [hv]; exact blend_app_allUnknown spam url phrase disp cf⟩

/-- Witness for C10 at whitespace-only header text. -/
theorem C10_nonempty_headers_witness :
    (parse_auth_headers " ").present = true
      ∧ parse_auth_headers " " = hvAllUnknown
      ∧ headerRisk (parse_auth_headers " ") = 3/20 := by
  have h := C10_nonempty_headers " " (by decide)
  have h2 := h.2 (by decide)
  exact ⟨h.1, h2.1, h2.2.1⟩

/-! ## C7 / C9 — allowlist attenuation -/

theorem dropPrefCI_isSuffix : ∀ (p s r : List Char),
    dropPrefCI p s = Option.some r → r <:+ s
  | [], s, r, h => by
    injection h with h
    exact h ▸ List.suffix_refl s
  | _ :: _, [], _, h => by cases h
  | p :: ps, c :: cs, r, h => by
    have heq : dropPrefCI (p :: ps) (c :: cs)
        = if Char.toLower c = p then dropPrefCI ps cs else Option.none := rfl
    by_cases hc : Char.toLower c = p
    · rw [heq, if_pos hc] at h
      exact (dropPrefCI_isSuffix ps cs r h).trans (List.suffix_cons c cs)
    · rw [heq, if_neg hc] at h
      cases h

theorem matchFromAt_eq_none {s : List Char} (h : '<' ∉ s) :
    matchFromAt s = Option.none := by
  cases hdp : dropPrefCI ("from:".toList) s with
  | none => simp only [matchFromAt, hdp]
  | some r0 =>
    have hr0 : '<' ∉ r0 := fun m => h ((dropPrefCI_isSuffix _ _ _ hdp).subset m)
    have hr1 : '<' ∉ r0.dropWhile isPySpace :=
      fun m => hr0 ((List.dropWhile_sublist _).subset m)
    have hnil : (r0.dropWhile isPySpace).dropWhile (fun c => c != '<') = [] := by
      rw [List.dropWhile_eq_nil_iff]
      intro c hc
      simp only [bne_iff_ne, ne_eq, decide_eq_true_eq]
      exact fun e => hr1 (e ▸ hc)
    simp only [matchFromAt, hdp, hnil]

theorem searchFrom_eq_none : ∀ {l : List Char}, '<' ∉ l →
    searchFrom l = Option.none
  | [], _ => rfl
  | c :: cs, h => by
    unfold searchFrom
    rw [matchFromAt_eq_none h]
    exact searchFrom_eq_none (fun m => h (List.mem_cons_of_mem _ m))

/-- Counterexample to C9 as stated: the From header gives a bare address
without angle brackets, yet the score does not pass through unchanged — the
regex's any-character run `[^<]*` crosses the newline and captures the
angle-bracket Reply-To address of the next header line, whose allowlisted
google.com domain attenuates 0.5 to 0.4. -/
theorem C9_counterexample :
    apply_allowlist (1/2) "From: user@evil.test\nReply-To: <x@google.com>" = 2/5
      ∧ apply_allowlist (1/2) "From: user@evil.test\nReply-To: <x@google.com>"
          ≠ 1/2 := by
  have hsf : searchFrom ("From: user@evil.test\nReply-To: <x@google.com>").data
      = Option.some ("google.com".toList) := by decide
  have hat : apply_allowlist (1/2) "From: user@evil.test\nReply-To: <x@google.com>"
      = max 0 ((1/2 : ℚ) - 1/10) := by
    unfold apply_allowlist
    rw [if_neg (by decide), hsf]
    exact if_pos (by decide)
  rw [hat, max_eq_right (by norm_num)]
  constructor
  · norm_num
  · norm_num

/-- C9 (amended): the allowlist regex only fires when an angle-bracket
address occurs somewhere in the header text, so any header text containing
no angle bracket at all — in particular a lone bare-address From header —
passes the score through unchanged even for an allowlisted domain. (A bare
From header followed by a later header holding an angle-bracket address can
still attenuate, since the regex crosses line boundaries; see the
counterexample.) -/
theorem C9_bare_from_unchanged (p : ℚ) (h : String)
    (hno : ∀ c ∈ h.data, c ≠ '<') :
    apply_allowlist p h = p := by
  have hsf : searchFrom h.data = Option.none :=
    searchFrom_eq_none (fun m => hno '<' m rfl)
  unfold apply_allowlist
  by_cases he : h = ""
  · rw [if_pos he]
  · rw [if_neg he, hsf]

/-- Witness for C9: a bare allowlisted address is not attenuated. -/
theorem C9_bare_from_unchanged_witness :
    apply_allowlist (7/10) "From: user@google.com" = 7/10 :=
  C9_bare_from_unchanged (7/10) "From: user@google.com" (by decide)

/-- C7: on a spam probability in [0,1], allowlist attenuation never raises
the score and never drives it below 0; a matched allowlisted (sub)domain
yields exactly max(0, s − 0.1); empty header text or no regex match passes
the score through unchanged. -/
theorem C7_allowlist_attenuation (sc : ℚ) (h : String)
    (h0 : 0 ≤ sc) (h1 : sc ≤ 1) :
    apply_allowlist sc h ≤ sc ∧ 0 ≤ apply_allowlist sc h
      ∧ (∀ d, searchFrom h.data = Option.some d →
          allowDomainMatch (toLowerL (stripL d)) = true →
          apply_allowlist sc h = max 0 (sc - 1/10))
      ∧ (h = "" → apply_allowlist sc h = sc)
      ∧ (searchFrom h.data = Option.none → apply_allowlist sc h = sc) := by
  by_cases he : h = ""
  · have hid : apply_allowlist sc h = sc := by
      unfold apply_allowlist
      rw [if_pos he]
    have hsf : searchFrom h.data = Option.none := by
      subst he
      rfl
    exact ⟨le_of_eq hid, by rw [hid]; exact h0,
      fun d hd _ => Option.noConfusion (hsf ▸ hd),
      fun _ => hid, fun _ => hid⟩
  · cases hsf : searchFrom h.data with
    | none =>
      have hid : apply_allowlist sc h = sc := by
        unfold apply_allowlist
        rw [if_neg he, hsf]
      exact ⟨le_of_eq hid, by rw [hid]; exact h0,
        fun d hd => Option.noConfusion hd,
        fun hemp => absurd hemp he, fun _ => hid⟩
    | some d0 =>
      by_cases ham : allowDomainMatch (toLowerL (stripL d0)) = true
      · have hat : apply_allowlist sc h = max 0 (sc - 1/10) := by
          unfold apply_allowlist
          rw [if_neg he, hsf]
          exact if_pos ham
        refine ⟨?_, ?_, ?_, fun hemp => absurd hemp he,
          fun hn => Option.noConfusion hn⟩
        · rw [hat]
          exact max_le h0 (by linarith)
        · rw [hat]
          exact le_max_left _ _
        · intro d hd _
          exact hat
      · have hid : apply_allowlist sc h = sc := by
          unfold apply_allowlist
          rw [if_neg he, hsf]
          exact if_neg ham
        refine ⟨le_of_eq hid, by rw [hid]; exact h0, ?_,
          fun hemp => absurd hemp he, fun hn => Option.noConfusion hn⟩
        intro d hd hm
        injection hd with hd
        exact absurd (hd.symm ▸ hm) ham

/-- Witness for C7: a From domain that is a subdomain of allowlisted
google.com is attenuated from 0.5 to exactly max(0, 0.4). -/
theorem C7_allowlist_attenuation_witness :
    apply_allowlist (1/2) "From: Alice <alice@mail.google.com>"
        = max 0 ((1/2 : ℚ) - 1/10)
      ∧ apply_allowlist (1/2) "From: Alice <alice@mail.google.com>" ≤ 1/2 := by
  have hc := C7_allowlist_attenuation (1/2) "From: Alice <alice@mail.google.com>"
    (by norm_num) (by norm_num)
  exact ⟨hc.2.2.1 ("mail.google.com".toList) (by decide) (by decide), hc.1⟩

/-! ## C6 — folded headers parse like their unfolded equivalent -/

theorem pySplitlines_cons_of_ne {c : Char} (cs : List Char)
    (h1 : c ≠ '\n') (h2 : c ≠ '\r') :
    pySplitlines (c :: cs) =
      match pySplitlines cs with
      | [] => [[c]]
      | p :: ps => (c :: p) :: ps := by
  simp [pySplitlines, h1, h2]

theorem pySplitlines_single {l : List Char}
    (h : ∀ c ∈ l, c ≠ '\n' ∧ c ≠ '\r') (hne : l ≠ []) :
    pySplitlines l = [l] := by
  induction l with
  | nil => exact absurd rfl hne
  | cons c cs ih =>
    obtain ⟨h1, h2⟩ := h c (List.mem_cons_self c cs)
    rw [pySplitlines_cons_of_ne cs h1 h2]
    by_cases hcs : cs = []
    · subst hcs
      rfl
    · rw [ih (fun a ha => h a (List.mem_cons_of_mem _ ha)) hcs]

theorem pySplitlines_append {l1 : List Char} (l2 : List Char)
    (h : ∀ c ∈ l1, c ≠ '\n' ∧ c ≠ '\r') :
    pySplitlines (l1 ++ '\n' :: l2) = l1 :: pySplitlines l2 := by
  induction l1 with
  | nil => rfl
  | cons c cs ih =>
    obtain ⟨h1, h2⟩ := h c (List.mem_cons_self c cs)
    rw [List.cons_append, pySplitlines_cons_of_ne _ h1 h2,
      ih (fun a ha => h a (List.mem_cons_of_mem _ ha))]

theorem dropWhile_head_false {α : Type} (p : α → Bool) :
    ∀ (l : List α) (d : α) (rest : List α),
      l.dropWhile p = d :: rest → p d = false
  | [], _, _, h => by cases h
  | a :: as, d, rest, h => by
    by_cases hp : p a = true
    · rw [List.dropWhile_cons_of_pos hp] at h
      exact dropWhile_head_false p as d rest h
    · rw [List.dropWhile_cons_of_neg hp] at h
      injection h with h1 _
      subst h1
      simpa using hp

theorem rstripL_snoc (l : List Char) {c : Char} (hc : isPySpace c = false) :
    rstripL (l ++ [c]) = l ++ [c] := by
  unfold rstripL
  rw [List.reverse_append]
  simp only [List.reverse_cons, List.reverse_nil, List.nil_append,
    List.singleton_append]
  rw [List.dropWhile_cons_of_neg (by simp [hc])]
  simp

theorem rstripL_shape (l : List Char) :
    rstripL l = [] ∨ ∃ xs c, rstripL l = xs ++ [c] ∧ isPySpace c = false := by
  unfold rstripL
  cases hd : l.reverse.dropWhile isPySpace with
  | nil => exact Or.inl rfl
  | cons d rest =>
    refine Or.inr ⟨rest.reverse, d, by simp, ?_⟩
    exact dropWhile_head_false _ _ _ _ hd

theorem rstripL_fix {l1 l2 : List Char} (hs : stripL l2 ≠ []) :
    rstripL (rstripL l1 ++ ' ' :: stripL l2) = rstripL l1 ++ ' ' :: stripL l2 := by
  obtain h | ⟨xs, c, hxc, hc⟩ := rstripL_shape (lstripL l2)
  · exact absurd h hs
  · have he : rstripL l1 ++ ' ' :: stripL l2 = (rstripL l1 ++ ' ' :: xs) ++ [c] := by
      rw [show stripL l2 = xs ++ [c] from hxc]
      simp
    rw [he, rstripL_snoc _ hc, ← he]

theorem mem_of_mem_rstripL {l : List Char} {c : Char} (h : c ∈ rstripL l) :
    c ∈ l := by
  unfold rstripL at h
  rw [List.mem_reverse] at h
  exact List.mem_reverse.mp ((List.dropWhile_sublist _).subset h)

theorem mem_of_mem_stripL {l : List Char} {c : Char} (h : c ∈ stripL l) :
    c ∈ l := by
  unfold stripL lstripL at h
  exact (List.dropWhile_sublist _).subset (mem_of_mem_rstripL h)

theorem unfoldStep_nil (line : List Char) : unfoldStep [] line = [rstripL line] :=
  rfl

theorem unfoldStep_one (a line : List Char) :
    unfoldStep [a] line =
      if startsFolded line then [a ++ ' ' :: stripL line]
      else [a, rstripL line] := rfl

theorem unfoldHeaders_folded (l1 l2 : List Char)
    (h1 : ∀ c ∈ l1, c ≠ '\n' ∧ c ≠ '\r') (h2 : ∀ c ∈ l2, c ≠ '\n' ∧ c ≠ '\r')
    (hf : startsFolded l2 = true) :
    unfoldHeaders (l1 ++ '\n' :: l2) = [rstripL l1 ++ ' ' :: stripL l2] := by
  have hne : l2 ≠ [] := by
    intro e
    rw [e] at hf
    exact absurd hf (by decide)
  unfold unfoldHeaders
  rw [pySplitlines_append l2 h1, pySplitlines_single h2 hne]
  show unfoldStep (unfoldStep [] l1) l2 = _
  rw [unfoldStep_nil, unfoldStep_one, if_pos hf]

theorem unfoldHeaders_singleline (l1 l2 : List Char)
    (h1 : ∀ c ∈ l1, c ≠ '\n' ∧ c ≠ '\r') (h2 : ∀ c ∈ l2, c ≠ '\n' ∧ c ≠ '\r')
    (hs : stripL l2 ≠ []) :
    unfoldHeaders (rstripL l1 ++ ' ' :: stripL l2)
      = [rstripL l1 ++ ' ' :: stripL l2] := by
  have hnb : ∀ c ∈ rstripL l1 ++ ' ' :: stripL l2, c ≠ '\n' ∧ c ≠ '\r' := by
    intro c hc
    rcases List.mem_append.mp hc with hl | hr
    · exact h1 c (mem_of_mem_rstripL hl)
    · rcases List.mem_cons.mp hr with he | hm
      · subst he
        exact ⟨by decide, by decide⟩
      · exact h2 c (mem_of_mem_stripL hm)
  have hne : rstripL l1 ++ ' ' :: stripL l2 ≠ [] := by simp
  unfold unfoldHeaders
  rw [pySplitlines_single hnb hne]
  show unfoldStep [] _ = _
  rw [unfoldStep_nil, rstripL_fix hs]

/-- C6: an Authentication-Results (or any other) header value split across
two physical lines, the second starting with a space or tab, parses to the
same HeaderVerdict as the equivalent single unfolded line (the first line
right-stripped, one space, the continuation stripped). -/
theorem C6_folded_header_equivalence (l1 l2 : List Char)
    (h1 : ∀ c ∈ l1, c ≠ '\n' ∧ c ≠ '\r') (h2 : ∀ c ∈ l2, c ≠ '\n' ∧ c ≠ '\r')
    (hf : startsFolded l2 = true) (hs : stripL l2 ≠ []) :
    parse_auth_headers (String.mk (l1 ++ '\n' :: l2))
      = parse_auth_headers (String.mk (rstripL l1 ++ ' ' :: stripL l2)) := by
  have hne1 : String.mk (l1 ++ '\n' :: l2) ≠ "" := by
    intro e
    have hl : l1 ++ '\n' :: l2 = [] := congrArg String.data e
    simp at hl
  have hne2 : String.mk (rstripL l1 ++ ' ' :: stripL l2) ≠ "" := by
    intro e
    have hl : rstripL l1 ++ ' ' :: stripL l2 = [] := congrArg String.data e
    simp at hl
  unfold parse_auth_headers
  rw [if_neg hne1, if_neg hne2]
  show parseHeaderMap (headersIndex (unfoldHeaders (l1 ++ '\n' :: l2)))
    = parseHeaderMap (headersIndex (unfoldHeaders (rstripL l1 ++ ' ' :: stripL l2)))
  rw [unfoldHeaders_folded l1 l2 h1 h2 hf, unfoldHeaders_singleline l1 l2 h1 h2 hs]

/-- Witness for C6: a concrete folded Authentication-Results header parses
identically to its unfolded single-line form. -/
theorem C6_folded_header_equivalence_witness :
    parse_auth_headers (String.mk
        ("Authentication-Results: mx.example.com; spf=fail;".toList
          ++ '\n' :: " dkim=fail; dmarc=pass".toList))
      = parse_auth_headers (String.mk
          (rstripL "Authentication-Results: mx.example.com; spf=fail;".toList
            ++ ' ' :: stripL " dkim=fail; dmarc=pass".toList)) :=
  C6_folded_header_equivalence _ _ (by decide) (by decide) (by decide) (by decide)

end EmailSpam
